import Mathlib

/-
Verification of the force-directed graph layout engine in src/bin/g3.rs
(GraphVisualizerApp). The definitions below are a shallow embedding of the
relevant Rust functions; machine floats are idealized as exact rationals
(or reals where square roots and trigonometry appear), except where the
IEEE special values are load-bearing, in which case an explicit extended
value type EF models them.
-/

namespace G3

/-! ## Edge filter predicates (g3.rs lines 528-531 and 894-898)

The rendering loop skips an edge when `self.weighted && weight <= self.min_weight`.
The spring-attraction loop admits an edge when
`!self.weighted || weight >= self.min_weight`. -/

/-- Embeds the attraction-filter test of `update_layout` (g3.rs 894-898):
`!self.weighted || ... weight >= self.min_weight`. -/
def edge_attraction_participates (weighted : Bool) (weight min_weight : ℚ) : Bool :=
  !weighted || decide (min_weight ≤ weight)

/-- Embeds the rendering visibility test of `update` (g3.rs 528-531): the edge
is drawn unless `self.weighted && weight <= self.min_weight`. -/
def edge_visible (weighted : Bool) (weight min_weight : ℚ) : Bool :=
  !(weighted && decide (weight ≤ min_weight))

/-! ## Viewport transforms (g3.rs 764-776) -/

/-- Embeds `graph_to_screen_pos` (g3.rs 764-769): `pos * zoom + pan_offset`,
componentwise. -/
def graph_to_screen_pos (zoom : ℚ) (pan : ℚ × ℚ) (p : ℚ × ℚ) : ℚ × ℚ :=
  (p.1 * zoom + pan.1, p.2 * zoom + pan.2)

/-- Embeds `screen_to_graph_pos` (g3.rs 771-776): `(pos - pan_offset) / zoom`,
componentwise. -/
def screen_to_graph_pos (zoom : ℚ) (pan : ℚ × ℚ) (p : ℚ × ℚ) : ℚ × ℚ :=
  ((p.1 - pan.1) / zoom, (p.2 - pan.2) / zoom)

/-! ## Convergence scheduler (g3.rs 976-990) -/

/-- Constant MIN_MOVEMENT from g3.rs line 20. -/
def MIN_MOVEMENT : ℚ := 10

/-- Embeds the adaptive threshold computation of `update_layout` (g3.rs 976-983):
`frame_factor = min(frame_count / 100, 1)`, `time_factor = min(elapsed / 2, 3)`,
`adaptive_threshold = MIN_MOVEMENT * (1 + time_factor * frame_factor)`. -/
def adaptive_threshold (elapsed : ℚ) (frame_count : ℕ) : ℚ :=
  MIN_MOVEMENT * (1 + min (elapsed / 2) 3 * min ((frame_count : ℚ) / 100) 1)

/-- Scheduler state carried by GraphVisualizerApp: `running_simulation`,
`frame_count`, `simulation_start_time` (modelled as the start instant in
seconds, `none` when cleared). -/
structure SchedState where
  running : Bool
  frame_count : ℕ
  sim_start : Option ℚ
deriving DecidableEq, Repr

/-- Embeds the settle decision at the end of `update_layout` (g3.rs 986-990):
if `max_movement < adaptive_threshold` then `running_simulation = false`,
`simulation_start_time = None`, `frame_count = 0`; otherwise the scheduler
state is left as it was. -/
def convergence_step (max_movement elapsed : ℚ) (frame_count : ℕ) (start : ℚ) :
    SchedState :=
  if max_movement < adaptive_threshold elapsed frame_count then
    ⟨false, 0, none⟩
  else
    ⟨true, frame_count, some start⟩

/-! ## Extended float values for `fit_to_view` (g3.rs 698-762)

The zoom computation divides by a possibly-zero padded width/height; in f32
this produces an infinity which then reaches `f32::clamp`, whose contract
panics when `min > max`. EF models exactly the f32 special values and the
operations `fit_to_view` performs on them; finite values are idealized as
exact rationals. -/

/-- An f32 value: NaN, the two infinities, or a finite value (idealized as an
exact rational). -/
inductive EF where
  | nan : EF
  | pinf : EF
  | ninf : EF
  | fin : ℚ → EF
deriving DecidableEq, Repr

/-- IEEE-754 comparison `<` (false whenever either operand is NaN). -/
def EF.lt : EF → EF → Bool
  | EF.nan, _ => false
  | _, EF.nan => false
  | EF.pinf, _ => false
  | EF.ninf, EF.ninf => false
  | EF.ninf, _ => true
  | EF.fin _, EF.pinf => true
  | EF.fin _, EF.ninf => false
  | EF.fin q, EF.fin r => decide (q < r)

/-- IEEE-754 comparison `<=` (false whenever either operand is NaN). -/
def EF.le : EF → EF → Bool
  | EF.nan, _ => false
  | _, EF.nan => false
  | _, EF.pinf => true
  | EF.pinf, _ => false
  | EF.ninf, _ => true
  | EF.fin _, EF.ninf => false
  | EF.fin q, EF.fin r => decide (q ≤ r)

/-- IEEE-754 multiplication restricted to the EF representation. -/
def EF.mul : EF → EF → EF
  | EF.nan, _ => EF.nan
  | _, EF.nan => EF.nan
  | EF.pinf, EF.pinf => EF.pinf
  | EF.pinf, EF.ninf => EF.ninf
  | EF.pinf, EF.fin q => if 0 < q then EF.pinf else if q < 0 then EF.ninf else EF.nan
  | EF.ninf, EF.pinf => EF.ninf
  | EF.ninf, EF.ninf => EF.pinf
  | EF.ninf, EF.fin q => if 0 < q then EF.ninf else if q < 0 then EF.pinf else EF.nan
  | EF.fin q, EF.pinf => if 0 < q then EF.pinf else if q < 0 then EF.ninf else EF.nan
  | EF.fin q, EF.ninf => if 0 < q then EF.ninf else if q < 0 then EF.pinf else EF.nan
  | EF.fin q, EF.fin r => EF.fin (q * r)

/-- IEEE-754 subtraction restricted to the EF representation. -/
def EF.sub : EF → EF → EF
  | EF.nan, _ => EF.nan
  | _, EF.nan => EF.nan
  | EF.pinf, EF.pinf => EF.nan
  | EF.pinf, _ => EF.pinf
  | EF.ninf, EF.ninf => EF.nan
  | EF.ninf, _ => EF.ninf
  | EF.fin _, EF.pinf => EF.ninf
  | EF.fin _, EF.ninf => EF.pinf
  | EF.fin q, EF.fin r => EF.fin (q - r)

/-- IEEE-754 division of two finite values: division by zero yields a signed
infinity (or NaN for zero over zero). -/
def EF.divQ (a b : ℚ) : EF :=
  if b = 0 then (if 0 < a then EF.pinf else if a < 0 then EF.ninf else EF.nan)
  else EF.fin (a / b)

/-- Rust `f32::min`: if one argument is NaN the other is returned. -/
def EF.fmin : EF → EF → EF
  | EF.nan, y => y
  | x, EF.nan => x
  | EF.pinf, y => y
  | x, EF.pinf => x
  | EF.ninf, _ => EF.ninf
  | _, EF.ninf => EF.ninf
  | EF.fin q, EF.fin r => EF.fin (min q r)

/-- Rust `f32::clamp(self, lo, hi)`: panics (modelled as `none`) when
`lo <= hi` fails, which happens when `lo > hi` or either bound is NaN;
otherwise moves the value into the interval, propagating a NaN input. -/
def EF.clamp (x lo hi : EF) : Option EF :=
  if EF.le lo hi then
    some (if x = EF.nan then EF.nan else if EF.lt x lo then lo else if EF.lt hi x then hi else x)
  else none

/-- Largest finite f32 value, used by `fit_to_view` to seed the bounding box
fold (`f32::MAX`, and `f32::MIN = -f32::MAX`). -/
def F32_MAX : ℚ := 2 ^ 128 - 2 ^ 104

/-- Bounding box accumulator of `fit_to_view` (g3.rs 712-724). -/
structure BBox where
  min_x : ℚ
  min_y : ℚ
  max_x : ℚ
  max_y : ℚ
deriving DecidableEq, Repr

/-- Position lookup in the position map, modelled as an association list. -/
def pos_lookup (positions : List (ℕ × ℚ × ℚ)) (n : ℕ) : Option (ℚ × ℚ) :=
  (positions.find? (fun e => e.1 == n)).map (fun e => e.2)

/-- The bounding-box fold of `fit_to_view` (g3.rs 712-724): nodes missing from
the position map are skipped. -/
def bbox_fold (positions : List (ℕ × ℚ × ℚ)) (nodes : List ℕ) : BBox :=
  nodes.foldl (fun acc n =>
    match pos_lookup positions n with
    | some p => ⟨min acc.min_x p.1, min acc.min_y p.2, max acc.max_x p.1, max acc.max_y p.2⟩
    | none => acc) ⟨F32_MAX, F32_MAX, -F32_MAX, -F32_MAX⟩

/-- Embeds `fit_to_view` (g3.rs 698-762). Inputs: the position map, the
selected-node set, the current zoom, pan and minimum-zoom state, and the
available window size. Returns `none` when the computation panics (the
`clamp` precondition fails), otherwise the new
`(zoom_level, pan_offset, min_zoom_level)`. -/
def fit_to_view (positions : List (ℕ × ℚ × ℚ)) (selected : List ℕ)
    (zoom0 : EF) (pan0 : EF × EF) (min_zoom0 : EF) (availX availY : ℚ) :
    Option (EF × (EF × EF) × EF) :=
  if positions.isEmpty then some (zoom0, pan0, min_zoom0)
  else
    let is_selection := !selected.isEmpty
    let nodes := if is_selection then selected else positions.map (fun e => e.1)
    let bb := bbox_fold positions nodes
    let width := bb.max_x - bb.min_x
    let height := bb.max_y - bb.min_y
    let padding_factor : ℚ := if is_selection then 1 else 2 / 5
    let padded_width := width * (1 + padding_factor)
    let padded_height := height * (1 + padding_factor)
    let zoom_x := EF.divQ availX padded_width
    let zoom_y := EF.divQ availY padded_height
    let min_zoom := if !is_selection
      then EF.mul (EF.fmin zoom_x zoom_y) (EF.fin (4 / 5)) else min_zoom0
    let lo := if is_selection then EF.mul min_zoom (EF.fin (1 / 10)) else min_zoom
    match EF.clamp (EF.fmin zoom_x zoom_y) lo (EF.fin 5) with
    | none => none
    | some new_zoom =>
      let cx := (bb.min_x + bb.max_x) / 2
      let cy := (bb.min_y + bb.max_y) / 2
      let panX := EF.sub (EF.fin (availX / 2)) (EF.mul (EF.fin cx) new_zoom)
      let panY := EF.sub (EF.fin (availY / 2)) (EF.mul (EF.fin cy) new_zoom)
      some (new_zoom, (panX, panY), min_zoom)

/-! ## Drift cancellation (g3.rs 928-959)

Velocities are a HashMap from node index to Vec2, modelled as a partial
function on node ids with rational coordinates. -/

/-- A 2-D vector with exact rational coordinates (idealizing egui Vec2). -/
abbrev QVec := ℚ × ℚ

/-- Map from node id to velocity (HashMap NodeIndex Vec2). -/
abbrev VMap := ℕ → Option QVec

/-- HashMap insert. -/
def vmap_insert (m : VMap) (k : ℕ) (v : QVec) : VMap :=
  fun n => if n = k then some v else m n

/-- Division of a vector by a node count (`avg_velocity /= node_count as f32`). -/
def vdivN (v : QVec) (n : ℕ) : QVec := (v.1 / n, v.2 / n)

/-- Scaling of a vector by a natural number, used to state sum lemmas. -/
def vsmulN (n : ℕ) (v : QVec) : QVec := (n * v.1, n * v.2)

/-- One step of the average-velocity accumulation (loop body at g3.rs
933-940): a non-dragged member with a velocity entry contributes its velocity
to the running sum and bumps the count. -/
def vel_step (dragged : Option ℕ) (vel : VMap) (acc : QVec × ℕ) (n : ℕ) : QVec × ℕ :=
  if dragged = some n then acc
  else match vel n with
    | some v => (acc.1 + v, acc.2 + 1)
    | none => acc

/-- Embeds the average-velocity accumulation of `update_layout` (g3.rs
930-940): sums the velocities of the non-dragged component members that have
an entry in the velocity map, counting them. -/
def comp_vel_stats (comp : List ℕ) (dragged : Option ℕ) (vel : VMap) : QVec × ℕ :=
  comp.foldl (vel_step dragged vel) ((0, 0), 0)

/-- Embeds the mean-velocity computation (g3.rs 930-944): the accumulated sum
divided by the count when the count is positive. -/
def avg_velocity (comp : List ℕ) (dragged : Option ℕ) (vel : VMap) : QVec :=
  let s := comp_vel_stats comp dragged vel
  if 0 < s.2 then vdivN s.1 s.2 else s.1

/-- One step of the drift-cancellation pass (g3.rs 948-955): a non-dragged
member has the component average subtracted from its velocity
(`entry.or_insert(ZERO)` reads a missing entry as zero). -/
def cancel_step (dragged : Option ℕ) (avg : QVec) (m : VMap) (n : ℕ) : VMap :=
  if dragged = some n then m
  else vmap_insert m n ((m n).getD (0, 0) - avg)

/-- Embeds the drift-cancellation pass of the integration loop (g3.rs 947-955),
taken across the whole component before the force and damping update of the
same frame is applied. -/
def cancel_drift (comp : List ℕ) (dragged : Option ℕ) (vel : VMap) (avg : QVec) : VMap :=
  comp.foldl (cancel_step dragged avg) vel

/-- The mean velocity of the non-dragged members of a component, computed the
same way the code computes `avg_velocity` (g3.rs 930-944). -/
def mean_velocity (comp : List ℕ) (dragged : Option ℕ) (vel : VMap) : QVec :=
  avg_velocity comp dragged vel

/-! ## Lasso commit (g3.rs 389-408)

On `drag_stopped` in Select mode: when neither ctrl nor shift is held the
selection is first cleared; then every node of the preview set is inserted,
except that under ctrl each preview node is toggled (removed if present,
inserted otherwise). -/

/-- One preview-node commit step (body of the loop at g3.rs 395-403). -/
def commit_one (ctrl : Bool) (sel : Finset ℕ) (n : ℕ) : Finset ℕ :=
  if ctrl then (if n ∈ sel then sel.erase n else insert n sel)
  else insert n sel

/-- Embeds the lasso finalization branch of `update` (g3.rs 389-408): clear the
selection when no modifier is held, then fold the preview nodes through
`commit_one`. -/
def commit_lasso (sel : Finset ℕ) (preview : List ℕ) (ctrl shift : Bool) :
    Finset ℕ :=
  let base := if !ctrl && !shift then (∅ : Finset ℕ) else sel
  preview.foldl (commit_one ctrl) base

/-! ## Graph edges and the deduplicating builder (g3.rs 1103-1120)

The petgraph Undirected graph is modelled by its edge list, in insertion
order: `(endpoint1, endpoint2, weight)`. -/

/-- One undirected edge with its weight. -/
abbrev Edge := ℕ × ℕ × ℚ

/-- Whether the unordered pair of endpoints of two edges coincide (the match
petgraph uses for `contains_edge` and `find_edge` on an undirected graph). -/
def same_pair (a b c d : ℕ) : Prop := (a = c ∧ b = d) ∨ (a = d ∧ b = c)

instance same_pair_decidable (a b c d : ℕ) : Decidable (same_pair a b c d) := by
  unfold same_pair
  infer_instance

/-- Embeds petgraph `contains_edge` for an undirected graph: some stored edge
joins the same unordered pair. -/
def contains_edge (es : List Edge) (a b : ℕ) : Bool :=
  es.any (fun e => decide (same_pair e.1 e.2.1 a b))

/-- Embeds petgraph `find_edge` followed by `edge_weight`: the weight of the
first stored edge joining the unordered pair, when one exists. -/
def find_edge_weight (es : List Edge) (a b : ℕ) : Option ℚ :=
  (es.find? (fun e => decide (same_pair e.1 e.2.1 a b))).map (fun e => e.2.2)

/-- The number of stored edges joining a given unordered pair. -/
def pair_count (es : List Edge) (a b : ℕ) : ℕ :=
  (es.filter (fun e => decide (same_pair e.1 e.2.1 a b))).length

/-- The guarded insertion of `parse_input` (g3.rs 1116-1119): the edge is
added only if no edge between the pair already exists. -/
def add_edge_checked (g : List Edge) (e : Edge) : List Edge :=
  if contains_edge g e.1 e.2.1 then g else g ++ [e]

/-- Embeds the second pass of `parse_input` (g3.rs 1103-1120), restricted to
edge insertion: edges are processed in input order through the guarded
insertion. -/
def build_edges (input : List Edge) : List Edge :=
  input.foldl add_edge_checked []

/-- Embeds petgraph `neighbors`: every opposite endpoint of an edge incident
to the node, in edge-list order. -/
def neighbors_of (es : List Edge) (n : ℕ) : List ℕ :=
  es.filterMap (fun e =>
    if e.1 = n then some e.2.1 else if e.2.1 = n then some e.1 else none)

/-! ## Force simulator (g3.rs 825-1013)

Geometry is idealized over the reals; square roots appear through
`Vec2::length` and `Vec2::normalized`. The zero vector normalizes to zero
under the Lean convention of division by zero (the source would produce NaN
there; no claim below touches that case). -/

/-- A 2-D vector with real coordinates (idealizing egui Vec2/Pos2 in the
simulator). -/
abbrev RVec := ℝ × ℝ

/-- egui `Vec2::length`. -/
noncomputable def vlen (v : RVec) : ℝ := Real.sqrt (v.1 ^ 2 + v.2 ^ 2)

/-- egui `Vec2::normalized` (the vector divided by its length). -/
noncomputable def vnorm (v : RVec) : RVec := (v.1 / vlen v, v.2 / vlen v)

/-- Multiplication of a vector by an f32 scalar (`vec * c`). -/
def vscale (c : ℝ) (v : RVec) : RVec := (v.1 * c, v.2 * c)

/-- Constant SPRING_LENGTH from g3.rs line 15 (12.5). -/
noncomputable def SPRING_LENGTH : ℝ := 25 / 2

/-- Constant SPRING_K from g3.rs line 16 (0.05). -/
noncomputable def SPRING_K : ℝ := 1 / 20

/-- Constant REPULSION_K from g3.rs line 17. -/
def REPULSION_K : ℝ := 100000

/-- Constant DAMPING from g3.rs line 18 (0.8). -/
noncomputable def DAMPING : ℝ := 4 / 5

/-- Constant MAX_VELOCITY from g3.rs line 19. -/
def MAX_VELOCITY : ℝ := 20

/-- Embeds the initializer seed angle of `reset_layout` (g3.rs 814):
`(node_idx.index() as f32) * 0.1`. -/
noncomputable def seed_angle (id : ℕ) : ℝ := (id : ℝ) * (1 / 10)

/-- Embeds the seed velocity of `reset_layout` (g3.rs 813-816):
`Vec2::new(cos, sin) * 2.0` at the seed angle. -/
noncomputable def seed_velocity (id : ℕ) : RVec :=
  (Real.cos (seed_angle id) * 2, Real.sin (seed_angle id) * 2)

/-- Embeds the per-frame jitter initialization of `update_layout` (g3.rs
841-844): angle `(node_idx.index() as f32) * PI * 0.1`, magnitude 0.1. -/
noncomputable def jitter_force (id : ℕ) : RVec :=
  (Real.cos ((id : ℝ) * Real.pi * (1 / 10)) * (1 / 10),
   Real.sin ((id : ℝ) * Real.pi * (1 / 10)) * (1 / 10))

/-- Modelled from the spec sentence for C5, for comparison with the source:
the jitter claimed to use the same angle formula as the initializer seed
(`id * 0.1` radians), scaled to magnitude 0.1. -/
noncomputable def jitter_force_spec (id : ℕ) : RVec :=
  (Real.cos (seed_angle id) * (1 / 10), Real.sin (seed_angle id) * (1 / 10))

/-- Embeds the node placement of `reset_layout` (g3.rs 806-811): the i-th of n
component members is placed on a circle of radius 150 around the component
center, at angle `2 * PI * i / n`. -/
noncomputable def init_position (center : RVec) (n i : ℕ) : RVec :=
  (150 * Real.cos (2 * Real.pi * (i : ℝ) / (n : ℝ)) + center.1,
   150 * Real.sin (2 * Real.pi * (i : ℝ) / (n : ℝ)) + center.2)

/-- Squared euclidean distance between two points. -/
def sqdist (p q : RVec) : ℝ := (p.1 - q.1) ^ 2 + (p.2 - q.2) ^ 2

/-- Euclidean distance between two points (egui `Pos2::distance`). -/
noncomputable def pdist (p q : RVec) : ℝ := Real.sqrt (sqdist p q)

/-- Embeds the repulsion contribution of one node pair (g3.rs 864-874). -/
noncomputable def repulsion_force (p1 p2 : RVec) : RVec :=
  let delta := p1 - p2
  let dist := max (vlen delta) 1
  let strength := if dist < SPRING_LENGTH then REPULSION_K * 2 else REPULSION_K
  vscale (strength / dist ^ 2) (vnorm delta)

/-- Embeds the spring contribution of one edge (g3.rs 904-914). -/
noncomputable def spring_force (p1 p2 : RVec) : RVec :=
  let delta := p1 - p2
  let dist := max (vlen delta) 1
  let k := if SPRING_LENGTH * 2 < dist then SPRING_K * 2 else SPRING_K
  vscale ((dist - SPRING_LENGTH) * (-k))  (vnorm delta)

/-- Embeds the centering force toward the component center (g3.rs 879-883). -/
noncomputable def centering_force (center p : RVec) : RVec :=
  let to_center := center - p
  vscale ((1 / 20) * (vlen to_center / 300) ^ 2) to_center

/-- Embeds `calculate_component_center` (g3.rs 993-1013): mean position of the
component members present in the position map. -/
noncomputable def calculate_component_center (comp : List ℕ) (pos : ℕ → Option RVec) : RVec :=
  let s := comp.foldl (fun (acc : RVec × ℕ) n =>
    match pos n with
    | some p => (acc.1 + p, acc.2 + 1)
    | none => acc) ((0, 0), 0)
  if 0 < s.2 then (s.1.1 / s.2, s.1.2 / s.2) else s.1

/-- Embeds the repulsion accumulation for one receiver node (g3.rs 855-876):
every other component member contributes; pairs with a missing position are
skipped. The dragged node is not excluded here as a source. -/
noncomputable def repulsion_sum (comp : List ℕ) (pos : ℕ → Option RVec) (n1 : ℕ) : RVec :=
  comp.foldl (fun acc n2 =>
    if n1 = n2 then acc
    else match pos n1, pos n2 with
      | some p1, some p2 => acc + repulsion_force p1 p2
      | _, _ => acc) (0, 0)

/-- Embeds the spring accumulation for one receiver node (g3.rs 889-923):
for each neighbor inside the component passing the weight filter, the spring
force is added unless the receiver is the dragged node. The dragged node is
not excluded here as a source. -/
noncomputable def spring_sum (weighted : Bool) (min_weight : ℚ) (edges : List Edge)
    (comp : List ℕ) (pos : ℕ → Option RVec) (dragged : Option ℕ) (n1 : ℕ) : RVec :=
  (neighbors_of edges n1).foldl (fun acc nb =>
    if nb ∈ comp then
      if (!weighted || (match find_edge_weight edges n1 nb with
          | some w => decide (min_weight ≤ w)
          | none => false)) then
        match pos n1, pos nb with
        | some p1, some p2 =>
          if dragged = some n1 then acc else acc + spring_force p1 p2
        | _, _ => acc
      else acc
    else acc) (0, 0)

/-- The total force accumulated on one node by the per-component force phase
of `update_layout` (g3.rs 837-924): the jitter initialization, plus, when the
node is not the dragged node, the repulsion sum, the centering force and the
spring sum. -/
noncomputable def total_force (weighted : Bool) (min_weight : ℚ) (edges : List Edge)
    (comp : List ℕ) (pos : ℕ → Option RVec) (dragged : Option ℕ) (n1 : ℕ) : RVec :=
  let center := calculate_component_center comp pos
  if dragged = some n1 then jitter_force n1
  else
    jitter_force n1
      + (repulsion_sum comp pos n1
         + (match pos n1 with
            | some p => centering_force center p
            | none => (0, 0)))
      + spring_sum weighted min_weight edges comp pos dragged n1

/-- Modelled from the spec sentence for C3, for comparison with the source:
the repulsion accumulation with the dragged node also skipped as a source. -/
noncomputable def repulsion_sum_spec (comp : List ℕ) (pos : ℕ → Option RVec)
    (dragged : Option ℕ) (n1 : ℕ) : RVec :=
  comp.foldl (fun acc n2 =>
    if n1 = n2 then acc
    else if dragged = some n2 then acc
    else match pos n1, pos n2 with
      | some p1, some p2 => acc + repulsion_force p1 p2
      | _, _ => acc) (0, 0)

/-- Modelled from the spec sentence for C3, for comparison with the source:
the spring accumulation with the dragged node also skipped as a source. -/
noncomputable def spring_sum_spec (weighted : Bool) (min_weight : ℚ) (edges : List Edge)
    (comp : List ℕ) (pos : ℕ → Option RVec) (dragged : Option ℕ) (n1 : ℕ) : RVec :=
  (neighbors_of edges n1).foldl (fun acc nb =>
    if nb ∈ comp then
      if (!weighted || (match find_edge_weight edges n1 nb with
          | some w => decide (min_weight ≤ w)
          | none => false)) then
        match pos n1, pos nb with
        | some p1, some p2 =>
          if dragged = some n1 then acc
          else if dragged = some nb then acc
          else acc + spring_force p1 p2
        | _, _ => acc
      else acc
    else acc) (0, 0)

/-- Modelled from the spec sentence for C3, for comparison with the source:
the total force with no contribution originating from the dragged node. -/
noncomputable def total_force_spec (weighted : Bool) (min_weight : ℚ) (edges : List Edge)
    (comp : List ℕ) (pos : ℕ → Option RVec) (dragged : Option ℕ) (n1 : ℕ) : RVec :=
  let center := calculate_component_center comp pos
  if dragged = some n1 then jitter_force n1
  else
    jitter_force n1
      + (repulsion_sum_spec comp pos dragged n1
         + (match pos n1 with
            | some p => centering_force center p
            | none => (0, 0)))
      + spring_sum_spec weighted min_weight edges comp pos dragged n1

/-- Embeds the velocity clamp (g3.rs 962-964). -/
noncomputable def clamp_velocity (v : RVec) : RVec :=
  if MAX_VELOCITY < vlen v then vscale MAX_VELOCITY (vnorm v) else v

/-- One step of the integration loop (g3.rs 948-972): a non-dragged member
has the component average subtracted from its velocity, the accumulated force
applied, damping, the velocity clamp, and then moves by the resulting
velocity; `max_movement` tracks the largest velocity magnitude applied (only
for members present in the position map, as in the source). The dragged node
is skipped entirely. -/
noncomputable def integrate_step (dragged : Option ℕ) (forces : ℕ → RVec) (avg : RVec)
    (st : (ℕ → Option RVec) × (ℕ → Option RVec) × ℝ) (n : ℕ) :
    (ℕ → Option RVec) × (ℕ → Option RVec) × ℝ :=
  if dragged = some n then st
  else
    let v1 := (st.1 n).getD (0, 0) - avg
    let v2 := vscale DAMPING (v1 + forces n)
    let v3 := clamp_velocity v2
    let vel2 : ℕ → Option RVec := fun m => if m = n then some v3 else st.1 m
    match st.2.1 n with
    | some p =>
      (vel2, fun m => if m = n then some (p + v3) else st.2.1 m,
       max st.2.2 (vlen v3))
    | none => (vel2, st.2.1, st.2.2)

/-- Embeds the integration loop of `update_layout` for one component (g3.rs
947-973), folding `integrate_step` over the members. -/
noncomputable def integrate_component (comp : List ℕ) (dragged : Option ℕ)
    (forces : ℕ → RVec) (avg : RVec) (vel pos : ℕ → Option RVec) (max_movement : ℝ) :
    (ℕ → Option RVec) × (ℕ → Option RVec) × ℝ :=
  comp.foldl (integrate_step dragged forces avg) (vel, pos, max_movement)

/-! ## Theorems -/

/-- Claim C1, counterexample: for a weighted graph with an edge whose weight
equals the threshold, the attraction filter admits the edge while the
rendering filter hides it, so the two predicates do not agree and visibility
does not hold at weight = threshold despite weight being at least the
threshold. -/
theorem c1_filter_counterexample :
    edge_attraction_participates true 1 1 = true ∧ edge_visible true 1 1 = false := by
  constructor <;> decide

/-- Claim C1 as amended: for a weighted graph, an edge participates in spring
attraction exactly when its weight is at least the threshold, while it is
visible exactly when its weight is strictly above the threshold; the two
predicates agree at every weight other than the threshold itself, where the
edge attracts but is not rendered. -/
theorem c1_filter_amended (w t : ℚ) :
    (edge_attraction_participates true w t = true ↔ t ≤ w) ∧
    (edge_visible true w t = true ↔ t < w) ∧
    (w ≠ t → edge_attraction_participates true w t = edge_visible true w t) := by
  refine ⟨?_, ?_, ?_⟩
  · simp [edge_attraction_participates]
  · simp [edge_visible]
  · intro hne
    simp only [edge_attraction_participates, edge_visible]
    rcases lt_trichotomy w t with h | h | h
    · simp [not_le.mpr h, le_of_lt h]
    · exact absurd h hne
    · simp [le_of_lt h, not_le.mpr h]

/-- Witness for `c1_filter_amended` at weight 2 and threshold 1. -/
theorem c1_filter_amended_witness :
    (2 : ℚ) ≠ 1 ∧ edge_attraction_participates true 2 1 = edge_visible true 2 1 :=
  ⟨by norm_num, (c1_filter_amended 2 1).2.2 (by norm_num)⟩

/-- Claim C2 is the spec intent but the code violates it: on a single-node
graph (non-empty position map with a zero-width and zero-height bounding
box), `fit_to_view` divides the available size by a zero padded width, the
resulting infinite zoom becomes the lower clamp bound, and `f32::clamp`
panics because its lower bound exceeds its upper bound 5.0; no finite zoom
or pan is produced. -/
theorem c2_fit_to_view_single_node_panics :
    fit_to_view [(0, (100, 100))] [] (EF.fin 1) (EF.fin 0, EF.fin 0)
      (EF.fin (1 / 2)) 1024 600 = none := by
  norm_num [fit_to_view, bbox_fold, pos_lookup, EF.divQ, EF.fmin, EF.mul,
    EF.clamp, EF.le, F32_MAX]

/-- Claim C7: the scheduler settles exactly when the frame maximal movement is
strictly below the adaptive threshold
`MIN_MOVEMENT * (1 + min(elapsed/2, 3) * min(frameCount/100, 1))`, and on
that transition it stops iterating, zeroes the frame counter and clears the
elapsed-time origin. -/
theorem c7_convergence (m e : ℚ) (fc : ℕ) (st : ℚ) :
    ((convergence_step m e fc st).running = false ↔
      m < MIN_MOVEMENT * (1 + min (e / 2) 3 * min ((fc : ℚ) / 100) 1)) ∧
    (m < MIN_MOVEMENT * (1 + min (e / 2) 3 * min ((fc : ℚ) / 100) 1) →
      convergence_step m e fc st = ⟨false, 0, none⟩) := by
  unfold convergence_step adaptive_threshold
  by_cases h : m < MIN_MOVEMENT * (1 + min (e / 2) 3 * min ((fc : ℚ) / 100) 1)
  · simp [h]
  · simp [h]

/-- Witness for `c7_convergence` at zero movement, zero elapsed time, zero
frames. -/
theorem c7_convergence_witness :
    (0 : ℚ) < MIN_MOVEMENT * (1 + min ((0 : ℚ) / 2) 3 * min (((0 : ℕ) : ℚ) / 100) 1) ∧
    convergence_step 0 0 0 0 = ⟨false, 0, none⟩ :=
  ⟨by norm_num [MIN_MOVEMENT], (c7_convergence 0 0 0 0).2 (by norm_num [MIN_MOVEMENT])⟩

/-- Claim C8: for nonzero zoom, mapping a point to the screen and back is the
identity (exactly, over the rational idealization of f32). -/
theorem c8_zoom_round_trip (zoom : ℚ) (pan p : ℚ × ℚ) (h : zoom ≠ 0) :
    screen_to_graph_pos zoom pan (graph_to_screen_pos zoom pan p) = p := by
  unfold screen_to_graph_pos graph_to_screen_pos
  ext
  · field_simp
  · field_simp

/-- Witness for `c8_zoom_round_trip` at zoom 2, pan (3, 4), point (5, 6). -/
theorem c8_zoom_round_trip_witness :
    (2 : ℚ) ≠ 0 ∧ screen_to_graph_pos 2 (3, 4) (graph_to_screen_pos 2 (3, 4) (5, 6)) = (5, 6) :=
  ⟨by norm_num, c8_zoom_round_trip 2 (3, 4) (5, 6) (by norm_num)⟩

/-- Claim C9: committing a lasso over three distinct nodes from an empty
selection with no modifier yields exactly those three nodes; committing the
same preview again with ctrl held toggles all three back out, leaving the
selection empty. -/
theorem c9_lasso_selection (a b c : ℕ) (hab : a ≠ b) (hac : a ≠ c) (hbc : b ≠ c) :
    commit_lasso ∅ [a, b, c] false false = {a, b, c} ∧
    commit_lasso {a, b, c} [a, b, c] true false = ∅ := by
  have hunfold : ∀ (sel : Finset ℕ) (ctrl shift : Bool),
      commit_lasso sel [a, b, c] ctrl shift =
        commit_one ctrl (commit_one ctrl (commit_one ctrl
          (if !ctrl && !shift then (∅ : Finset ℕ) else sel) a) b) c := by
    intro sel ctrl shift
    simp only [commit_lasso, List.foldl_cons, List.foldl_nil]
  constructor
  · rw [hunfold]
    simp only [Bool.not_false, Bool.and_self, if_true]
    simp only [commit_one, Bool.false_eq_true, if_false]
    ext x
    simp only [Finset.mem_insert, Finset.mem_singleton, Finset.not_mem_empty]
    tauto
  · rw [hunfold]
    simp only [Bool.not_true, Bool.not_false, Bool.false_and, Bool.false_eq_true, if_false]
    have h1 : commit_one true ({a, b, c} : Finset ℕ) a = ({b, c} : Finset ℕ) := by
      simp only [commit_one, if_true]
      rw [if_pos (by simp)]
      exact Finset.erase_insert (by simp [hab, hac])
    have h2 : commit_one true ({b, c} : Finset ℕ) b = ({c} : Finset ℕ) := by
      simp only [commit_one, if_true]
      rw [if_pos (by simp)]
      exact Finset.erase_insert (by simp [hbc])
    have h3 : commit_one true ({c} : Finset ℕ) c = (∅ : Finset ℕ) := by
      simp only [commit_one, if_true]
      rw [if_pos (by simp)]
      exact Finset.erase_singleton c
    rw [h1, h2, h3]

/-- Witness for `c9_lasso_selection` on nodes 0, 1, 2. -/
theorem c9_lasso_selection_witness :
    ((0 : ℕ) ≠ 1 ∧ (0 : ℕ) ≠ 2 ∧ (1 : ℕ) ≠ 2) ∧
    (commit_lasso ∅ [0, 1, 2] false false = {0, 1, 2} ∧
     commit_lasso {0, 1, 2} [0, 1, 2] true false = ∅) :=
  ⟨by decide, c9_lasso_selection 0 1 2 (by decide) (by decide) (by decide)⟩

/-- If two edges join the same unordered pair, matching against one target
pair is the same as matching against the other. -/
theorem same_pair_coherent {x y a b u v : ℕ} (h : same_pair x y a b) :
    same_pair u v a b ↔ same_pair u v x y := by
  unfold same_pair at *
  rcases h with ⟨h1, h2⟩ | ⟨h1, h2⟩ <;> subst h1 <;> subst h2 <;> tauto

/-- `pair_count` only depends on the unordered target pair. -/
theorem pair_count_congr {es : List Edge} {a b x y : ℕ}
    (h : same_pair x y a b) : pair_count es a b = pair_count es x y := by
  unfold pair_count
  congr 1
  refine List.filter_congr (fun f _ => ?_)
  exact decide_eq_decide.mpr (same_pair_coherent h)

/-- `find_edge_weight` only depends on the unordered target pair. -/
theorem find_edge_weight_congr {es : List Edge} {a b x y : ℕ}
    (h : same_pair x y a b) : find_edge_weight es a b = find_edge_weight es x y := by
  unfold find_edge_weight
  have hfun : (fun f : Edge => decide (same_pair f.1 f.2.1 a b)) =
      (fun f : Edge => decide (same_pair f.1 f.2.1 x y)) :=
    funext fun f => decide_eq_decide.mpr (same_pair_coherent h)
  rw [hfun]

/-- `contains_edge` is false exactly when no stored edge joins the pair. -/
theorem contains_edge_eq_false {es : List Edge} {a b : ℕ} :
    contains_edge es a b = false ↔ ∀ e ∈ es, ¬ same_pair e.1 e.2.1 a b := by
  simp [contains_edge]

/-- `find_edge_weight` on a cons. -/
theorem find_edge_weight_cons {e : Edge} {es : List Edge} {a b : ℕ} :
    find_edge_weight (e :: es) a b =
      if same_pair e.1 e.2.1 a b then some e.2.2 else find_edge_weight es a b := by
  by_cases h : same_pair e.1 e.2.1 a b
  · simp [find_edge_weight, List.find?_cons_of_pos, h]
  · simp [find_edge_weight, List.find?_cons_of_neg, h]

/-- `find_edge_weight` on an append. -/
theorem find_edge_weight_append {es fs : List Edge} {a b : ℕ} :
    find_edge_weight (es ++ fs) a b =
      (find_edge_weight es a b).or (find_edge_weight fs a b) := by
  unfold find_edge_weight
  rw [List.find?_append]
  cases List.find? (fun e => decide (same_pair e.1 e.2.1 a b)) es <;> simp

/-- `pair_count` on an append. -/
theorem pair_count_append {es fs : List Edge} {a b : ℕ} :
    pair_count (es ++ fs) a b = pair_count es a b + pair_count fs a b := by
  unfold pair_count
  rw [List.filter_append, List.length_append]

/-- When `contains_edge` is false, no stored edge matches, so the count is
zero and the lookup fails. -/
theorem not_contains_edge_facts {es : List Edge} {a b : ℕ}
    (h : contains_edge es a b = false) :
    pair_count es a b = 0 ∧ find_edge_weight es a b = none := by
  rw [contains_edge_eq_false] at h
  constructor
  · unfold pair_count
    rw [List.length_eq_zero, List.filter_eq_nil_iff]
    intro e he
    simpa using h e he
  · unfold find_edge_weight
    rw [List.find?_eq_none.mpr (fun e he => by simpa using h e he)]
    rfl

/-- Invariant preservation and first-occurrence semantics for the foldl of
`build_edges`, generalized over the accumulator. -/
theorem build_edges_aux (es : List Edge) :
    ∀ acc : List Edge, (∀ a b, pair_count acc a b ≤ 1) →
      (∀ a b, pair_count (es.foldl add_edge_checked acc) a b ≤ 1) ∧
      (∀ a b, find_edge_weight (es.foldl add_edge_checked acc) a b =
        (find_edge_weight acc a b).or (find_edge_weight es a b)) := by
  induction es with
  | nil =>
    intro acc hinv
    refine ⟨fun a b => hinv a b, fun a b => ?_⟩
    simp [find_edge_weight]
  | cons e rest ih =>
    intro acc hinv
    have hstep : ∀ a b, pair_count (add_edge_checked acc e) a b ≤ 1 := by
      intro a b
      unfold add_edge_checked
      by_cases hc : contains_edge acc e.1 e.2.1
      · simpa [hc] using hinv a b
      · rw [if_neg (by simp [hc]), pair_count_append]
        by_cases hp : same_pair e.1 e.2.1 a b
        · have hz : pair_count acc a b = 0 := by
            rw [pair_count_congr hp]
            exact (not_contains_edge_facts (by simpa using hc)).1
          have hone : pair_count [e] a b ≤ 1 := by
            unfold pair_count
            simp [List.filter]
            split <;> simp
          omega
        · have h1 : pair_count [e] a b = 0 := by
            unfold pair_count
            simp [List.filter, hp]
          have h2 := hinv a b
          omega
    have hmain := ih (add_edge_checked acc e) hstep
    refine ⟨by rw [List.foldl_cons]; exact hmain.1, fun a b => ?_⟩
    rw [List.foldl_cons, hmain.2 a b, find_edge_weight_cons]
    unfold add_edge_checked
    by_cases hc : contains_edge acc e.1 e.2.1
    · rw [if_pos (by simp [hc])]
      by_cases hp : same_pair e.1 e.2.1 a b
      · have hs : (List.find? (fun f : Edge => decide (same_pair f.1 f.2.1 e.1 e.2.1)) acc).isSome := by
          rw [List.find?_isSome]
          simpa [contains_edge] using hc
        obtain ⟨g, hg⟩ := Option.isSome_iff_exists.mp hs
        have hw : find_edge_weight acc a b = some g.2.2 := by
          rw [find_edge_weight_congr hp]
          unfold find_edge_weight
          rw [hg]
          rfl
        rw [hw, if_pos hp]
        simp [Option.or]
      · rw [if_neg hp]
    · rw [if_neg (by simp [hc])]
      by_cases hp : same_pair e.1 e.2.1 a b
      · have hnone : find_edge_weight acc a b = none := by
          rw [find_edge_weight_congr hp]
          exact (not_contains_edge_facts (by simpa using hc)).2
        rw [find_edge_weight_append, hnone, find_edge_weight_cons, if_pos hp, if_pos hp]
        simp [find_edge_weight, Option.or]
      · have heq : find_edge_weight (acc ++ [e]) a b = find_edge_weight acc a b := by
          rw [find_edge_weight_append, find_edge_weight_cons, if_neg hp]
          simp [find_edge_weight]
        rw [heq, if_neg hp]

/-- Claim C10: the graph built by `parse_input` contains at most one edge
between any unordered pair of nodes, and the weight stored for a pair is that
of the first occurrence of the pair in the input (later occurrences are
ignored by the contains-edge check before insertion). -/
theorem c10_edge_dedup (input : List Edge) (a b : ℕ) :
    pair_count (build_edges input) a b ≤ 1 ∧
    find_edge_weight (build_edges input) a b = find_edge_weight input a b := by
  have h0 : ∀ x y, pair_count ([] : List Edge) x y ≤ 1 := by
    intro x y
    simp [pair_count]
  have h := build_edges_aux input [] h0
  refine ⟨h.1 a b, ?_⟩
  have h2 := h.2 a b
  unfold build_edges
  rw [h2]
  simp [find_edge_weight, Option.or]

/-- Characterization of the velocity-statistics fold: it returns the sum and
count of the velocities picked from the non-dragged members that have entries. -/
theorem vel_step_foldl (dragged : Option ℕ) (vel : VMap) (comp : List ℕ) :
    ∀ init : QVec × ℕ,
      comp.foldl (vel_step dragged vel) init =
      (init.1 + (comp.filterMap (fun n => if dragged = some n then none else vel n)).sum,
       init.2 + (comp.filterMap (fun n => if dragged = some n then none else vel n)).length) := by
  induction comp with
  | nil =>
    intro init
    simp
  | cons a rest ih =>
    intro init
    rw [List.foldl_cons, List.filterMap_cons]
    by_cases hd : dragged = some a
    · rw [show vel_step dragged vel init a = init from by simp [vel_step, hd]]
      rw [ih init]
      simp [hd]
    · cases hv : vel a with
      | none =>
        rw [show vel_step dragged vel init a = init from by simp [vel_step, hd, hv]]
        rw [ih init]
        simp [hd, hv]
      | some v =>
        rw [show vel_step dragged vel init a = (init.1 + v, init.2 + 1) from by
          simp [vel_step, hd, hv]]
        rw [ih (init.1 + v, init.2 + 1)]
        simp only [hd, if_false, hv, List.sum_cons, List.length_cons]
        refine Prod.ext ?_ ?_
        · simp [add_assoc]
        · simp
          omega

/-- The statistics of a component with respect to a velocity map, as sum and
count over the picked entries. -/
theorem comp_vel_stats_eq (comp : List ℕ) (dragged : Option ℕ) (vel : VMap) :
    comp_vel_stats comp dragged vel =
      ((comp.filterMap (fun n => if dragged = some n then none else vel n)).sum,
       (comp.filterMap (fun n => if dragged = some n then none else vel n)).length) := by
  unfold comp_vel_stats
  rw [vel_step_foldl]
  simp

/-- A cancellation step leaves every other key of the map unchanged. -/
theorem cancel_step_ne (dragged : Option ℕ) (avg : QVec) (m : VMap) {n a : ℕ}
    (hne : n ≠ a) : cancel_step dragged avg m a n = m n := by
  unfold cancel_step vmap_insert
  split
  · rfl
  · simp [hne]

/-- The drift-cancellation fold leaves keys outside the component unchanged. -/
theorem cancel_drift_not_mem (dragged : Option ℕ) (avg : QVec) (comp : List ℕ) :
    ∀ (m : VMap) (n : ℕ), n ∉ comp →
      comp.foldl (cancel_step dragged avg) m n = m n := by
  induction comp with
  | nil =>
    intro m n _
    rfl
  | cons a rest ih =>
    intro m n hn
    rw [List.foldl_cons]
    have hna : n ≠ a := fun h => hn (h ▸ List.mem_cons_self a rest)
    have hnr : n ∉ rest := fun h => hn (List.mem_cons_of_mem a h)
    rw [ih _ n hnr, cancel_step_ne dragged avg m hna]

/-- After the drift-cancellation fold over a duplicate-free component, every
non-dragged member holds its original velocity minus the average. -/
theorem cancel_drift_get (dragged : Option ℕ) (avg : QVec) (comp : List ℕ) :
    ∀ (m : VMap) (n : ℕ), comp.Nodup → n ∈ comp → dragged ≠ some n →
      comp.foldl (cancel_step dragged avg) m n = some ((m n).getD (0, 0) - avg) := by
  induction comp with
  | nil =>
    intro m n _ hn _
    exact absurd hn (List.not_mem_nil n)
  | cons a rest ih =>
    intro m n hnd hn hdr
    rw [List.foldl_cons]
    have hrest : rest.Nodup := (List.nodup_cons.mp hnd).2
    have hanr : a ∉ rest := (List.nodup_cons.mp hnd).1
    rcases List.mem_cons.mp hn with heq | hmem
    · subst heq
      rw [cancel_drift_not_mem dragged avg rest _ n hanr]
      simp [cancel_step, hdr, vmap_insert]
    · have hna : n ≠ a := fun h => hanr (h ▸ hmem)
      rw [ih _ n hrest hmem hdr, cancel_step_ne dragged avg m hna]

/-- Sum of a constant-shifted map: subtracting a constant from each mapped
value subtracts the count times the constant from the sum. -/
theorem sum_map_sub_const (l : List ℕ) (g : ℕ → QVec) (c : QVec) :
    (l.map (fun n => g n - c)).sum = (l.map g).sum - vsmulN l.length c := by
  induction l with
  | nil => simp [vsmulN]
  | cons a rest ih =>
    simp only [List.map_cons, List.sum_cons, List.length_cons, ih, vsmulN]
    refine Prod.ext ?_ ?_ <;>
      simp [Prod.fst_add, Prod.snd_add, Prod.fst_sub, Prod.snd_sub] <;>
      push_cast <;> ring

/-- Cons step for `filterMap` with an explicit function argument (avoids
higher-order unification). -/
theorem filterMap_cons_eq_none {α β : Type} (g : α → Option β) (a : α) (l : List α)
    (h : g a = none) : List.filterMap g (a :: l) = List.filterMap g l := by
  simp [List.filterMap_cons, h]

/-- Cons step for `filterMap` with an explicit function argument, matching
case. -/
theorem filterMap_cons_eq_some {α β : Type} (g : α → Option β) (a : α) (l : List α)
    (b : β) (h : g a = some b) :
    List.filterMap g (a :: l) = b :: List.filterMap g l := by
  simp [List.filterMap_cons, h]

/-- When every non-dragged member satisfies a lookup equation, the picked
entries are exactly the mapped values over the non-dragged members. -/
theorem filterMap_pick_eq (dragged : Option ℕ) (w : VMap) (f : ℕ → QVec) :
    ∀ comp : List ℕ, (∀ n ∈ comp, dragged ≠ some n → w n = some (f n)) →
      comp.filterMap (fun n => if dragged = some n then none else w n) =
      (comp.filter (fun n => !decide (dragged = some n))).map f := by
  intro comp
  induction comp with
  | nil =>
    intro _
    rfl
  | cons a rest ih =>
    intro h
    have ihr := ih (fun n hn hdr => h n (List.mem_cons_of_mem a hn) hdr)
    by_cases hd : dragged = some a
    · rw [filterMap_cons_eq_none (fun n => if dragged = some n then none else w n)
          a rest (by simp [hd]),
        List.filter_cons_of_neg (by simp [hd]), ihr]
    · have ha : w a = some (f a) := h a (List.mem_cons_self a rest) hd
      rw [filterMap_cons_eq_some (fun n => if dragged = some n then none else w n)
          a rest (f a) (by simp [hd, ha]),
        List.filter_cons_of_pos (by simp [hd]), List.map_cons, ihr]

/-- Claim C6: in every simulation step, for a duplicate-free component all of
whose non-dragged members have velocity entries, the mean velocity of the
non-dragged members computed right after the drift-cancellation subtraction
(and before the force-and-damping update of the frame) is the zero vector,
exactly, over the rational idealization of f32. -/
theorem c6_drift_cancellation (comp : List ℕ) (dragged : Option ℕ) (vel : VMap)
    (hnd : comp.Nodup)
    (hent : ∀ n ∈ comp, dragged ≠ some n → (vel n).isSome) :
    mean_velocity comp dragged
      (cancel_drift comp dragged vel (avg_velocity comp dragged vel)) = (0, 0) := by
  have havg : avg_velocity comp dragged vel = avg_velocity comp dragged vel := rfl
  set avg := avg_velocity comp dragged vel with havgdef
  set g : ℕ → QVec := fun n => (vel n).getD (0, 0) with hgdef
  set nd := comp.filter (fun n => !decide (dragged = some n)) with hnddef
  have hvel_pick : comp.filterMap (fun n => if dragged = some n then none else vel n)
      = nd.map g := by
    refine filterMap_pick_eq dragged vel g comp (fun n hn hdr => ?_)
    have hs := hent n hn hdr
    cases hv : vel n with
    | none =>
      rw [hv] at hs
      simp at hs
    | some v =>
      simp [hgdef, hv]
  have hstats : comp_vel_stats comp dragged vel = ((nd.map g).sum, nd.length) := by
    rw [comp_vel_stats_eq, hvel_pick]
    simp
  have hvel2_pick : comp.filterMap
      (fun n => if dragged = some n then none else cancel_drift comp dragged vel avg n)
      = nd.map (fun n => g n - avg) := by
    refine filterMap_pick_eq dragged _ (fun n => g n - avg) comp (fun n hn hdr => ?_)
    exact cancel_drift_get dragged avg comp vel n hnd hn hdr
  have hstats2 : comp_vel_stats comp dragged (cancel_drift comp dragged vel avg)
      = ((nd.map (fun n => g n - avg)).sum, nd.length) := by
    rw [comp_vel_stats_eq, hvel2_pick]
    simp
  unfold mean_velocity avg_velocity
  rw [hstats2, sum_map_sub_const nd g avg]
  by_cases hk : 0 < nd.length
  · have havg_eq : avg = vdivN (nd.map g).sum nd.length := by
      rw [havgdef]
      unfold avg_velocity
      rw [hstats]
      simp [hk]
    have hL : ((nd.length : ℚ)) ≠ 0 := by
      exact_mod_cast Nat.pos_iff_ne_zero.mp hk
    simp only [hk, if_true]
    rw [havg_eq]
    unfold vdivN vsmulN
    refine Prod.ext ?_ ?_ <;>
      simp only [Prod.fst_sub, Prod.snd_sub] <;>
      field_simp
  · have hnd0 : nd = [] := List.length_eq_zero.mp (Nat.eq_zero_of_not_pos hk)
    rw [hnd0]
    simp [vsmulN]

/-- Witness for `c6_drift_cancellation` on the two-node component [0, 1] with
velocities (2, 0) and (4, 2) and nothing dragged. -/
theorem c6_drift_cancellation_witness :
    (([0, 1] : List ℕ).Nodup ∧
      (∀ n ∈ ([0, 1] : List ℕ), (none : Option ℕ) ≠ some n →
        ((fun m => if m = 0 then some ((2 : ℚ), (0 : ℚ))
          else if m = 1 then some ((4 : ℚ), (2 : ℚ)) else none) n).isSome)) ∧
    mean_velocity [0, 1] none
      (cancel_drift [0, 1] none
        (fun m => if m = 0 then some ((2 : ℚ), (0 : ℚ))
          else if m = 1 then some ((4 : ℚ), (2 : ℚ)) else none)
        (avg_velocity [0, 1] none
          (fun m => if m = 0 then some ((2 : ℚ), (0 : ℚ))
            else if m = 1 then some ((4 : ℚ), (2 : ℚ)) else none))) = (0, 0) :=
  ⟨⟨by decide, by decide⟩,
    c6_drift_cancellation [0, 1] none _ (by decide) (by decide)⟩

/-- Claim C5, counterexample: at node id 5 the per-frame jitter direction uses
angle `5 * PI * 0.1 = PI/2` (cosine 0), while the initializer seed angle is
`5 * 0.1 = 0.5` (positive cosine), so the jitter does not use the same angle
formula as the seed. -/
theorem c5_jitter_counterexample : jitter_force 5 ≠ jitter_force_spec 5 := by
  intro h
  have h1 := congrArg Prod.fst h
  simp only [jitter_force, jitter_force_spec] at h1
  have ha : ((5 : ℕ) : ℝ) * Real.pi * (1 / 10) = Real.pi / 2 := by
    push_cast
    ring
  have hb : seed_angle 5 = 1 / 2 := by
    unfold seed_angle
    push_cast
    norm_num
  rw [ha, hb, Real.cos_pi_div_two] at h1
  have hc : 0 < Real.cos (1 / 2) := by
    refine Real.cos_pos_of_mem_Ioo (Set.mem_Ioo.mpr ⟨?_, ?_⟩)
    · nlinarith [Real.pi_gt_three]
    · nlinarith [Real.pi_gt_three]
  nlinarith [h1, hc]

/-- Claim C5 as amended: the per-frame jitter force of a node has the form
`(cos A, sin A) * 0.1` for the angle `A = PI *` (the initializer seed angle
`id * 0.1`) — the seed angle multiplied by PI, not the seed angle itself —
and its magnitude is exactly 0.1. -/
theorem c5_jitter_amended (id : ℕ) :
    jitter_force id =
      (Real.cos (Real.pi * seed_angle id) * (1 / 10),
       Real.sin (Real.pi * seed_angle id) * (1 / 10)) ∧
    (jitter_force id).1 ^ 2 + (jitter_force id).2 ^ 2 = (1 / 10) ^ 2 := by
  constructor
  · unfold jitter_force seed_angle
    rw [show ((id : ℝ) * Real.pi * (1 / 10)) = Real.pi * ((id : ℝ) * (1 / 10)) from by ring]
  · unfold jitter_force
    have hpyth := Real.sin_sq_add_cos_sq ((id : ℝ) * Real.pi * (1 / 10))
    nlinarith [hpyth]

/-- Squared distance between two placed nodes of one component: the law of
cosines on the placement circle of radius 150. -/
theorem sqdist_init_position (center : RVec) (n i j : ℕ) :
    sqdist (init_position center n i) (init_position center n j) =
      45000 * (1 - Real.cos (2 * Real.pi * (i : ℝ) / (n : ℝ)
        - 2 * Real.pi * (j : ℝ) / (n : ℝ))) := by
  unfold sqdist init_position
  rw [Real.cos_sub]
  have hi := Real.sin_sq_add_cos_sq (2 * Real.pi * (i : ℝ) / (n : ℝ))
  have hj := Real.sin_sq_add_cos_sq (2 * Real.pi * (j : ℝ) / (n : ℝ))
  nlinarith [hi, hj]

/-- Claim C4, counterexample: in a component of four nodes the distance
between nodes 0 and 1 (adjacent on the placement circle) differs from the
distance between nodes 0 and 2 (diametrically opposite), so the pairwise
initial distances are not all equal. -/
theorem c4_placement_counterexample :
    pdist (init_position (0, 0) 4 0) (init_position (0, 0) 4 1) ≠
    pdist (init_position (0, 0) 4 0) (init_position (0, 0) 4 2) := by
  have h1 : sqdist (init_position ((0 : ℝ), (0 : ℝ)) 4 0) (init_position (0, 0) 4 1)
      = 45000 := by
    rw [sqdist_init_position]
    rw [show 2 * Real.pi * ((0 : ℕ) : ℝ) / ((4 : ℕ) : ℝ)
        - 2 * Real.pi * ((1 : ℕ) : ℝ) / ((4 : ℕ) : ℝ) = -(Real.pi / 2) from by
      push_cast
      ring]
    rw [Real.cos_neg, Real.cos_pi_div_two]
    norm_num
  have h2 : sqdist (init_position ((0 : ℝ), (0 : ℝ)) 4 0) (init_position (0, 0) 4 2)
      = 90000 := by
    rw [sqdist_init_position]
    rw [show 2 * Real.pi * ((0 : ℕ) : ℝ) / ((4 : ℕ) : ℝ)
        - 2 * Real.pi * ((2 : ℕ) : ℝ) / ((4 : ℕ) : ℝ) = -Real.pi from by
      push_cast
      ring]
    rw [Real.cos_neg, Real.cos_pi]
    norm_num
  unfold pdist
  rw [h1, h2]
  exact ne_of_lt (Real.sqrt_lt_sqrt (by norm_num) (by norm_num))

/-- Claim C4 as amended: after a layout reset the members of a component of
size n at least 2 are placed on a circle of radius 150 at equally spaced
angles, so all distances between consecutively indexed members are equal, and
no two distinct members coincide; but the distances of non-consecutive pairs
differ from the consecutive ones in general. -/
theorem c4_placement_amended (center : RVec) (n : ℕ) (hn : 2 ≤ n) :
    (∀ i : ℕ, i + 1 < n →
      pdist (init_position center n i) (init_position center n (i + 1)) =
      pdist (init_position center n 0) (init_position center n 1)) ∧
    (∀ i j : ℕ, i < j → j < n →
      init_position center n i ≠ init_position center n j) := by
  have hnR : (0 : ℝ) < (n : ℝ) := by
    have : 0 < n := lt_of_lt_of_le (by norm_num) hn
    exact_mod_cast this
  constructor
  · intro i _
    unfold pdist
    rw [sqdist_init_position, sqdist_init_position]
    rw [show 2 * Real.pi * ((i : ℕ) : ℝ) / ((n : ℕ) : ℝ)
        - 2 * Real.pi * ((i + 1 : ℕ) : ℝ) / ((n : ℕ) : ℝ)
        = -(2 * Real.pi / (n : ℝ)) from by
      push_cast
      ring]
    rw [show 2 * Real.pi * ((0 : ℕ) : ℝ) / ((n : ℕ) : ℝ)
        - 2 * Real.pi * ((1 : ℕ) : ℝ) / ((n : ℕ) : ℝ)
        = -(2 * Real.pi / (n : ℝ)) from by
      push_cast
      ring]
  · intro i j hij hjn heq
    have h0 : sqdist (init_position center n i) (init_position center n j) = 0 := by
      rw [heq]
      simp [sqdist]
    rw [sqdist_init_position] at h0
    have hcos : Real.cos (2 * Real.pi * (i : ℝ) / (n : ℝ)
        - 2 * Real.pi * (j : ℝ) / (n : ℝ)) = 1 := by
      nlinarith [h0]
    have hji1 : (1 : ℝ) ≤ (j : ℝ) - (i : ℝ) := by
      have : i + 1 ≤ j := hij
      have hcast : ((i : ℝ)) + 1 ≤ (j : ℝ) := by exact_mod_cast this
      linarith
    have hjiN : (j : ℝ) - (i : ℝ) < (n : ℝ) := by
      have hj : (j : ℝ) < (n : ℝ) := by exact_mod_cast hjn
      have hi : (0 : ℝ) ≤ (i : ℝ) := Nat.cast_nonneg i
      linarith
    have hpi := Real.pi_pos
    have hΔ : 2 * Real.pi * (i : ℝ) / (n : ℝ) - 2 * Real.pi * (j : ℝ) / (n : ℝ)
        = -(2 * Real.pi * ((j : ℝ) - (i : ℝ)) / (n : ℝ)) := by
      ring
    have hfrac_pos : 0 < 2 * Real.pi * ((j : ℝ) - (i : ℝ)) / (n : ℝ) := by
      apply div_pos
      · nlinarith
      · exact hnR
    have hfrac_lt : 2 * Real.pi * ((j : ℝ) - (i : ℝ)) / (n : ℝ) < 2 * Real.pi := by
      rw [div_lt_iff₀ hnR]
      nlinarith
    rw [hΔ] at hcos
    have := (Real.cos_eq_one_iff_of_lt_of_lt (by linarith) (by linarith)).mp hcos
    linarith

/-- Witness for `c4_placement_amended` in a component of four nodes: the
distance from node 1 to node 2 equals the distance from node 0 to node 1, and
nodes 0 and 1 do not coincide. -/
theorem c4_placement_amended_witness :
    ((2 : ℕ) ≤ 4 ∧ 1 + 1 < 4 ∧ (0 : ℕ) < 1 ∧ (1 : ℕ) < 4) ∧
    pdist (init_position (0, 0) 4 1) (init_position (0, 0) 4 2) =
      pdist (init_position (0, 0) 4 0) (init_position (0, 0) 4 1) ∧
    init_position ((0 : ℝ), (0 : ℝ)) 4 0 ≠ init_position (0, 0) 4 1 :=
  ⟨by norm_num,
    (c4_placement_amended (0, 0) 4 (by norm_num)).1 1 (by norm_num),
    (c4_placement_amended (0, 0) 4 (by norm_num)).2 0 1 (by norm_num) (by norm_num)⟩

/-- The integration step leaves the state unchanged at the dragged node. -/
theorem integrate_step_skip (forces : ℕ → RVec) (avg : RVec)
    (st : (ℕ → Option RVec) × (ℕ → Option RVec) × ℝ) (n : ℕ) :
    integrate_step (some n) forces avg st n = st := by
  simp [integrate_step]

/-- The integration step writes only the entries of the node it processes. -/
theorem integrate_step_other (dragged : Option ℕ) (forces : ℕ → RVec) (avg : RVec)
    (st : (ℕ → Option RVec) × (ℕ → Option RVec) × ℝ) (n d : ℕ) (hne : d ≠ n) :
    (integrate_step dragged forces avg st n).1 d = st.1 d ∧
    (integrate_step dragged forces avg st n).2.1 d = st.2.1 d := by
  unfold integrate_step
  by_cases hd : dragged = some n
  · simp [hd]
  · simp only [hd, if_false]
    cases hm : st.2.1 n <;> simp [hm, hne]

/-- Folding the integration over a component never touches the velocity or
position entry of the dragged node. -/
theorem integrate_component_dragged (d : ℕ) (forces : ℕ → RVec) (avg : RVec)
    (comp : List ℕ) :
    ∀ st : (ℕ → Option RVec) × (ℕ → Option RVec) × ℝ,
      (comp.foldl (integrate_step (some d) forces avg) st).1 d = st.1 d ∧
      (comp.foldl (integrate_step (some d) forces avg) st).2.1 d = st.2.1 d := by
  induction comp with
  | nil =>
    intro st
    exact ⟨rfl, rfl⟩
  | cons a rest ih =>
    intro st
    rw [List.foldl_cons]
    by_cases hda : d = a
    · subst hda
      rw [integrate_step_skip]
      exact ih st
    · rcases ih (integrate_step (some d) forces avg st a) with ⟨h1, h2⟩
      rcases integrate_step_other (some d) forces avg st a d hda with ⟨g1, g2⟩
      exact ⟨h1.trans g1, h2.trans g2⟩

/-- Claim C3 as amended: the dragged node accumulates no repulsion, centering
or spring force (its force entry stays at the jitter initialization, which is
never applied), and the integrator leaves its velocity and position entries
unchanged; however the dragged node is not skipped as a force source, so
other nodes still receive its repulsion and spring contributions (see the
counterexample). -/
theorem c3_dragged_amended (weighted : Bool) (min_weight : ℚ) (edges : List Edge)
    (comp : List ℕ) (pos : ℕ → Option RVec) (d : ℕ)
    (forces : ℕ → RVec) (avg : RVec) (vel pmap : ℕ → Option RVec) (mm : ℝ) :
    total_force weighted min_weight edges comp pos (some d) d = jitter_force d ∧
    (integrate_component comp (some d) forces avg vel pmap mm).1 d = vel d ∧
    (integrate_component comp (some d) forces avg vel pmap mm).2.1 d = pmap d := by
  refine ⟨?_, ?_, ?_⟩
  · simp [total_force]
  · exact (integrate_component_dragged d forces avg comp (vel, pmap, mm)).1
  · exact (integrate_component_dragged d forces avg comp (vel, pmap, mm)).2

/-- Claim C3, counterexample: in the two-node component [0, 1] with one
unweighted edge, node 1 dragged, node 0 at the origin and node 1 at (10, 0),
the force accumulated on the non-dragged node 0 includes the repulsion and
spring contributions of the dragged node 1, so it differs from the force
computed with the dragged node skipped as a source (the claim predicts they
coincide). -/
theorem c3_dragged_counterexample :
    total_force false 0 [(0, 1, 1)] [0, 1]
      (fun n => if n = 0 then some ((0 : ℝ), (0 : ℝ))
        else if n = 1 then some ((10 : ℝ), (0 : ℝ)) else none) (some 1) 0 ≠
    total_force_spec false 0 [(0, 1, 1)] [0, 1]
      (fun n => if n = 0 then some ((0 : ℝ), (0 : ℝ))
        else if n = 1 then some ((10 : ℝ), (0 : ℝ)) else none) (some 1) 0 := by
  set P : ℕ → Option RVec := fun n => if n = 0 then some ((0 : ℝ), (0 : ℝ))
    else if n = 1 then some ((10 : ℝ), (0 : ℝ)) else none with hP
  have hP0 : P 0 = some ((0 : ℝ), (0 : ℝ)) := rfl
  have hP1 : P 1 = some ((10 : ℝ), (0 : ℝ)) := rfl
  have hsub : ((0 : ℝ), (0 : ℝ)) - ((10 : ℝ), (0 : ℝ)) = ((-10 : ℝ), (0 : ℝ)) := by
    rw [Prod.mk_sub_mk]
    norm_num
  have hlen : vlen ((-10 : ℝ), (0 : ℝ)) = 10 := by
    unfold vlen
    norm_num
    rw [show (100 : ℝ) = 10 ^ 2 from by norm_num]
    exact Real.sqrt_sq (by norm_num)
  have hnorm : vnorm ((-10 : ℝ), (0 : ℝ)) = ((-1 : ℝ), (0 : ℝ)) := by
    unfold vnorm
    rw [hlen]
    norm_num
  have hrep : repulsion_force ((0 : ℝ), (0 : ℝ)) ((10 : ℝ), (0 : ℝ))
      = ((-2000 : ℝ), (0 : ℝ)) := by
    unfold repulsion_force
    simp only [hsub, hlen, hnorm]
    rw [show max (10 : ℝ) 1 = 10 from max_eq_left (by norm_num)]
    rw [if_pos (by norm_num [SPRING_LENGTH])]
    unfold vscale REPULSION_K
    norm_num
  have hcen : calculate_component_center [0, 1] P = ((5 : ℝ), (0 : ℝ)) := by
    unfold calculate_component_center
    simp only [List.foldl_cons, List.foldl_nil, hP0, hP1]
    norm_num [Prod.mk_add_mk]
  have hlen5 : vlen ((5 : ℝ), (0 : ℝ)) = 5 := by
    unfold vlen
    norm_num
    rw [show (25 : ℝ) = 5 ^ 2 from by norm_num]
    exact Real.sqrt_sq (by norm_num)
  have hcf : centering_force ((5 : ℝ), (0 : ℝ)) ((0 : ℝ), (0 : ℝ))
      = ((1 / 14400 : ℝ), (0 : ℝ)) := by
    unfold centering_force
    have hsub2 : ((5 : ℝ), (0 : ℝ)) - ((0 : ℝ), (0 : ℝ)) = ((5 : ℝ), (0 : ℝ)) := by
      rw [Prod.mk_sub_mk]
      norm_num
    simp only [hsub2, hlen5]
    unfold vscale
    norm_num
  have hsp : spring_force ((0 : ℝ), (0 : ℝ)) ((10 : ℝ), (0 : ℝ))
      = ((-1 / 8 : ℝ), (0 : ℝ)) := by
    unfold spring_force
    simp only [hsub, hlen, hnorm]
    rw [show max (10 : ℝ) 1 = 10 from max_eq_left (by norm_num)]
    rw [if_neg (by norm_num [SPRING_LENGTH])]
    unfold vscale SPRING_LENGTH SPRING_K
    norm_num
  have hjit : jitter_force 0 = ((1 / 10 : ℝ), (0 : ℝ)) := by
    unfold jitter_force
    norm_num
  have hrepz : repulsion_force (0 : RVec) ((10 : ℝ), (0 : ℝ)) = ((-2000 : ℝ), (0 : ℝ)) := hrep
  have hrsum : repulsion_sum [0, 1] P 0 = ((-2000 : ℝ), (0 : ℝ)) := by
    unfold repulsion_sum
    simp only [List.foldl_cons, List.foldl_nil, hP0, hP1]
    norm_num [hrepz, Prod.mk_add_mk]
  have hneigh : neighbors_of [(0, 1, 1)] 0 = [1] := rfl
  have hspz : spring_force (0 : RVec) ((10 : ℝ), (0 : ℝ)) = ((-1 / 8 : ℝ), (0 : ℝ)) := hsp
  have hssum : spring_sum false 0 [(0, 1, 1)] [0, 1] P (some 1) 0
      = ((-1 / 8 : ℝ), (0 : ℝ)) := by
    unfold spring_sum
    rw [hneigh]
    simp only [List.foldl_cons, List.foldl_nil, hP0, hP1]
    norm_num [hspz, Prod.mk_add_mk]
  have hrsum2 : repulsion_sum_spec [0, 1] P (some 1) 0 = ((0 : ℝ), (0 : ℝ)) := by
    unfold repulsion_sum_spec
    simp only [List.foldl_cons, List.foldl_nil]
    norm_num
  have hssum2 : spring_sum_spec false 0 [(0, 1, 1)] [0, 1] P (some 1) 0
      = ((0 : ℝ), (0 : ℝ)) := by
    unfold spring_sum_spec
    rw [hneigh]
    simp only [List.foldl_cons, List.foldl_nil, hP0, hP1]
    norm_num
  have htot1 : total_force false 0 [(0, 1, 1)] [0, 1] P (some 1) 0
      = ((1 / 10 + (-2000 + 1 / 14400) + -1 / 8 : ℝ), (0 : ℝ)) := by
    unfold total_force
    rw [if_neg (by simp)]
    simp only [hcen, hP0, hrsum, hcf, hssum, hjit]
    norm_num [Prod.mk_add_mk]
  have htot2 : total_force_spec false 0 [(0, 1, 1)] [0, 1] P (some 1) 0
      = ((1 / 10 + (0 + 1 / 14400) + 0 : ℝ), (0 : ℝ)) := by
    unfold total_force_spec
    rw [if_neg (by simp)]
    simp only [hcen, hP0, hrsum2, hcf, hssum2, hjit]
    norm_num [Prod.mk_add_mk]
  intro h
  rw [htot1, htot2] at h
  have h1 := congrArg Prod.fst h
  norm_num at h1

end G3
